import Mathlib

/-!
Shallow embedding of the `pattern` crate (`src/lib.rs`): a pull-based
pattern-matching engine over an iterator, with four extraction strategies
(`AnyStrategy`, `ImmediateValueStrategy`, `DeferredValueStrategy`,
`GetStrategy`) built on the shared consumption primitive `Pattern::collect`.

Modelling choices:
* The iterator (`Pattern.iter`) is a `List α`; pulling `next()` is taking the
  head.  Every operation returns, besides its result, the remaining list, so
  consumption is observable (consumed count = original length − remaining
  length).
* Rust's runtime-checked array indexing `values[i]` is modelled with `[i]?`;
  an out-of-bounds access yields the `panicked` outcome, so panic-freedom is
  a provable statement rather than an assumption.
* The caller-supplied observer closure is modelled by recording the list of
  arguments it was invoked with (per item for `ImmediateValueStrategy`,
  per slice for the other strategies), returned as a third component.
* The external `tiny_serde::Deserialize` capability of `GetStrategy` is a
  parameter `decode : List α → Option β`.
-/

universe u v w

/-- Failure vocabulary of every extraction operation (`enum PatternError`). -/
inductive PatternError where
  | NotFound
  | FailedDeserialize
  | IncorrectValue
deriving DecidableEq

/-- Outcome of one invocation of a per-item callback passed to
`Pattern::collect`: the updated captured state, an error, or a Rust panic
(out-of-bounds index inside the callback). -/
inductive CbResult (σ : Type u) where
  | ok (s : σ)
  | err (e : PatternError)
  | panicked
deriving DecidableEq

/-- Outcome of an extraction operation: `Ok(val)`, `Err(e)`, or a Rust
panic. -/
inductive ExtractResult (β : Type u) where
  | ok (val : β)
  | err (e : PatternError)
  | panicked
deriving DecidableEq

variable {α : Type u} {β : Type v} {σ : Type w}

/-- Worker for `Pattern::collect`: the loop `for i in 0..count`, with the
loop index made explicit.  For each pulled item the callback is applied to
the index and the item, threading the captured state `s` (the Rust closure's
captured mutable environment).  If the source is exhausted first, the result
is `NotFound`; items pulled before a failure stay consumed. -/
def collectAux (cb : Nat → α → σ → CbResult σ) :
    Nat → Nat → List α → σ → ExtractResult Unit × σ × List α
  | 0, _, src, s => (.ok (), s, src)
  | count + 1, i, src, s =>
    match src with
    | [] => (.err .NotFound, s, [])
    | x :: rest =>
      match cb i x s with
      | .ok s' => collectAux cb count (i + 1) rest s'
      | .err e => (.err e, s, rest)
      | .panicked => (.panicked, s, rest)

/-- `Pattern::collect`: calls the provided closure on the next items of the
iterator for a given count (the shared consumption primitive). -/
def Pattern.collect (count : Nat) (cb : Nat → α → σ → CbResult σ)
    (src : List α) (s : σ) : ExtractResult Unit × σ × List α :=
  collectAux cb count 0 src s

/-- The closure `ImmediateValueStrategy::extract_and` passes to
`Pattern::collect`: compare the candidate with `values[i]` (a checked index),
on success store it in the result and invoke the observer closure with the
candidate; state = (result built so far, observer invocation arguments). -/
def immediateCb [DecidableEq α] (values : List α) :
    Nat → α → List α × List α → CbResult (List α × List α) :=
  fun i candidate st =>
    match values[i]? with
    | none => .panicked
    | some v =>
      if candidate = v then .ok (st.1 ++ [candidate], st.2 ++ [candidate])
      else .err .IncorrectValue

/-- `ImmediateValueStrategy::extract_and`: expects the next `values.length`
items to equal `values` in order.  Returns the result (or error), the
remaining source, and the observer invocation arguments (one per matched
item). -/
def ImmediateValueStrategy.extract_and [DecidableEq α] (values src : List α) :
    ExtractResult (List α) × List α × List α :=
  match Pattern.collect values.length (immediateCb values) src ([], []) with
  | (.ok _, st, rest) => (.ok st.1, rest, st.2)
  | (.err e, st, rest) => (.err e, rest, st.2)
  | (.panicked, st, rest) => (.panicked, rest, st.2)

/-- `ImmediateValueStrategy::extract`: `extract_and` with a no-op closure
(the observer record is dropped). -/
def ImmediateValueStrategy.extract [DecidableEq α] (values src : List α) :
    ExtractResult (List α) × List α :=
  ((ImmediateValueStrategy.extract_and values src).1,
   (ImmediateValueStrategy.extract_and values src).2.1)

/-- `ImmediateValueStrategy::deferred` / the `From` impl: the conversion
moves the `values` array (and the borrowed `Pattern`) verbatim into a
`DeferredValueStrategy`.  Its effect on the expected-value sequence is the
identity. -/
def ImmediateValueStrategy.deferred (values : List α) : List α := values

/-- The closure `AnyStrategy::extract_and` passes to `Pattern::collect`:
unconditionally store the candidate (`result[i] = candidate`). -/
def anyCb : Nat → α → List α → CbResult (List α) :=
  fun _ candidate st => .ok (st ++ [candidate])

/-- `AnyStrategy::extract_and`: pulls the next `N` items unconditionally;
on success, the observer closure is invoked once with the full result
slice. -/
def AnyStrategy.extract_and (N : Nat) (src : List α) :
    ExtractResult (List α) × List α × List (List α) :=
  match Pattern.collect N anyCb src [] with
  | (.ok _, st, rest) => (.ok st, rest, [st])
  | (.err e, _, rest) => (.err e, rest, [])
  | (.panicked, _, rest) => (.panicked, rest, [])

/-- `AnyStrategy::extract`: `extract_and` with a no-op closure. -/
def AnyStrategy.extract (N : Nat) (src : List α) :
    ExtractResult (List α) × List α :=
  ((AnyStrategy.extract_and (α := α) N src).1,
   (AnyStrategy.extract_and (α := α) N src).2.1)

/-- The scan loop of `DeferredValueStrategy::extract_and`: pull items and
discard them until one equals `values[0]` (a checked index: with `N = 0`
the access panics), returning the matched candidate and the remaining
source; `NotFound` if the source is exhausted first. -/
def deferredScan [DecidableEq α] (values : List α) :
    List α → ExtractResult α × List α
  | [] => (.err .NotFound, [])
  | x :: rest =>
    match values[0]? with
    | none => (.panicked, rest)
    | some v0 => if x = v0 then (.ok x, rest) else deferredScan values rest

/-- The closure `DeferredValueStrategy::extract_and` passes to
`Pattern::collect` for the post-anchor items: compare the candidate with
`values[i + 1]` (checked index) and store it on success. -/
def deferredCb [DecidableEq α] (values : List α) :
    Nat → α → List α → CbResult (List α) :=
  fun i candidate st =>
    match values[i + 1]? with
    | none => .panicked
    | some v =>
      if candidate = v then .ok (st ++ [candidate])
      else .err .IncorrectValue

/-- `DeferredValueStrategy::extract_and`: scan for the anchor `values[0]`,
then require the following `N - 1` items to equal `values[1..]` in order;
on success the observer closure is invoked once with the full result. -/
def DeferredValueStrategy.extract_and [DecidableEq α] (values src : List α) :
    ExtractResult (List α) × List α × List (List α) :=
  match deferredScan values src with
  | (.ok c, rest) =>
    match Pattern.collect (values.length - 1) (deferredCb values) rest [c] with
    | (.ok _, st, rest') => (.ok st, rest', [st])
    | (.err e, _, rest') => (.err e, rest', [])
    | (.panicked, _, rest') => (.panicked, rest', [])
  | (.err e, rest) => (.err e, rest, [])
  | (.panicked, rest) => (.panicked, rest, [])

/-- `DeferredValueStrategy::extract`: `extract_and` with a no-op closure. -/
def DeferredValueStrategy.extract [DecidableEq α] (values src : List α) :
    ExtractResult (List α) × List α :=
  ((DeferredValueStrategy.extract_and values src).1,
   (DeferredValueStrategy.extract_and values src).2.1)

/-- The loop of `GetStrategy::extract_and` (`for i in 0..N`): pull a `K`-item
run via an inner `AnyStrategy` (the observer closure is forwarded to it, so
it fires once per pulled run), decode the run, and store the decoded value;
a rejected run stops the loop with `FailedDeserialize`. -/
def getAux (K : Nat) (decode : List α → Option β) :
    Nat → List α → List β → List (List α) →
    ExtractResult (List β) × List α × List (List α)
  | 0, src, acc, obs => (.ok acc, src, obs)
  | n + 1, src, acc, obs =>
    match AnyStrategy.extract_and K src with
    | (.ok run, rest, obs1) =>
      match decode run with
      | some v => getAux K decode n rest (acc ++ [v]) (obs ++ obs1)
      | none => (.err .FailedDeserialize, rest, obs ++ obs1)
    | (.err e, rest, obs1) => (.err e, rest, obs ++ obs1)
    | (.panicked, rest, obs1) => (.panicked, rest, obs ++ obs1)

/-- `GetStrategy::extract_and`: produce `N` decoded values, each from a
consecutive `K`-item raw run. -/
def GetStrategy.extract_and (N K : Nat) (decode : List α → Option β)
    (src : List α) : ExtractResult (List β) × List α × List (List α) :=
  getAux K decode N src [] []

/-- `GetStrategy::extract`: `extract_and` with a no-op closure. -/
def GetStrategy.extract (N K : Nat) (decode : List α → Option β)
    (src : List α) : ExtractResult (List β) × List α :=
  ((GetStrategy.extract_and N K decode src).1,
   (GetStrategy.extract_and N K decode src).2.1)

/-! ### Characterization of the shared primitive under `anyCb` -/

/-- Running `collectAux` with the unconditional callback either pulls exactly
`c` items (appending them to the state) or exhausts the source. -/
lemma collectAux_anyCb (c : Nat) :
    ∀ (i : Nat) (src st : List α),
      collectAux anyCb c i src st =
        if c ≤ src.length then (.ok (), st ++ src.take c, src.drop c)
        else (.err .NotFound, st ++ src, []) := by
  induction c with
  | zero => intro i src st; simp [collectAux]
  | succ c ih =>
    intro i src st
    cases src with
    | nil => simp [collectAux]
    | cons x rest =>
      simp only [collectAux, anyCb]
      rw [ih]
      by_cases h : c ≤ rest.length
      · rw [if_pos h, if_pos (by simpa using Nat.succ_le_succ h)]
        simp
      · rw [if_neg h, if_neg (by simpa using fun hc => h (Nat.le_of_succ_le_succ hc))]
        simp

/-- Closed form of `AnyStrategy::extract_and`. -/
lemma AnyStrategy.extract_and_eq (N : Nat) (src : List α) :
    AnyStrategy.extract_and N src =
      if N ≤ src.length then (.ok (src.take N), src.drop N, [src.take N])
      else (.err .NotFound, [], []) := by
  unfold AnyStrategy.extract_and Pattern.collect
  rw [collectAux_anyCb]
  by_cases h : N ≤ src.length <;> simp [h]

/-- C1: if the source has at least `N` items remaining, `AnyStrategy::extract`
returns `Ok` with exactly the next `N` items of the source in consumption
order and advances the source by exactly `N` items; if the source has fewer
than `N` items remaining, it fails with `NotFound` and advances the source by
exactly its remaining length (the whole source is consumed). -/
theorem any_extract_spec (N : Nat) (src : List α) :
    (N ≤ src.length →
      AnyStrategy.extract N src = (.ok (src.take N), src.drop N)) ∧
    (src.length < N →
      AnyStrategy.extract N src = (.err .NotFound, [])) := by
  constructor
  · intro h
    simp [AnyStrategy.extract, AnyStrategy.extract_and_eq, h]
  · intro h
    simp [AnyStrategy.extract, AnyStrategy.extract_and_eq, Nat.not_le.mpr h]

/-- Witness for `any_extract_spec` at concrete inputs. -/
theorem any_extract_spec_witness :
    AnyStrategy.extract 2 ([5, 6, 7] : List ℕ) = (.ok [5, 6], [7]) ∧
    AnyStrategy.extract 4 ([5, 6] : List ℕ) = (.err .NotFound, []) :=
  ⟨(any_extract_spec 2 ([5, 6, 7] : List ℕ)).1 (by decide),
   (any_extract_spec 4 ([5, 6] : List ℕ)).2 (by decide)⟩

/-- C10: with `N = 0`, `AnyStrategy::extract` and
`ImmediateValueStrategy::extract` (empty expected sequence) succeed on every
source — including an exhausted one — returning the empty array and consuming
no items. -/
theorem zero_count_extract_spec [DecidableEq α] (src : List α) :
    AnyStrategy.extract 0 src = (.ok [], src) ∧
    ImmediateValueStrategy.extract ([] : List α) src = (.ok [], src) := by
  constructor
  · simp [AnyStrategy.extract, AnyStrategy.extract_and_eq]
  · rfl

/-- C9: `ImmediateValueStrategy::deferred()` preserves the expected-value
sequence exactly, so converting and then extracting yields the same result
(same values, same error, same consumption, same observer invocations) as a
`DeferredValueStrategy` constructed directly with the same sequence over the
same cursor and source. -/
theorem deferred_roundtrip_spec [DecidableEq α] (E src : List α) :
    ImmediateValueStrategy.deferred E = E ∧
    DeferredValueStrategy.extract_and (ImmediateValueStrategy.deferred E) src =
      DeferredValueStrategy.extract_and E src :=
  ⟨rfl, rfl⟩

/-! ### Step lemmas for the shared primitive -/

/-- One step of `collectAux` when the callback accepts the item. -/
lemma collectAux_cons_ok {cb : Nat → α → σ → CbResult σ} {i : Nat} {x : α}
    {s s' : σ} (hcb : cb i x s = .ok s') (c : Nat) (rest : List α) :
    collectAux cb (c + 1) i (x :: rest) s = collectAux cb c (i + 1) rest s' := by
  simp [collectAux, hcb]

/-- One step of `collectAux` when the callback rejects the item. -/
lemma collectAux_cons_err {cb : Nat → α → σ → CbResult σ} {i : Nat} {x : α}
    {s : σ} {e : PatternError} (hcb : cb i x s = .err e) (c : Nat)
    (rest : List α) :
    collectAux cb (c + 1) i (x :: rest) s = (.err e, s, rest) := by
  simp [collectAux, hcb]

/-- One step of `collectAux` when the callback panics. -/
lemma collectAux_cons_panicked {cb : Nat → α → σ → CbResult σ} {i : Nat}
    {x : α} {s : σ} (hcb : cb i x s = .panicked) (c : Nat) (rest : List α) :
    collectAux cb (c + 1) i (x :: rest) s = (.panicked, s, rest) := by
  simp [collectAux, hcb]

/-- `collectAux` on an exhausted source fails with `NotFound`. -/
lemma collectAux_nil (cb : Nat → α → σ → CbResult σ) (c i : Nat) (s : σ) :
    collectAux cb (c + 1) i [] s = (.err .NotFound, s, []) := by
  simp [collectAux]

/-! ### Evaluation of the immediate callback -/

/-- The immediate callback accepts a candidate equal to the expected value. -/
lemma immediateCb_eq_ok [DecidableEq α] {values : List α} {i : Nat} {d : α}
    (hget : values[i]? = some d) (st : List α × List α) :
    immediateCb values i d st = .ok (st.1 ++ [d], st.2 ++ [d]) := by
  simp [immediateCb, hget]

/-- The immediate callback rejects a candidate differing from the expected
value. -/
lemma immediateCb_eq_err [DecidableEq α] {values : List α} {i : Nat}
    {a b : α} (hget : values[i]? = some b) (hab : a ≠ b)
    (st : List α × List α) :
    immediateCb values i a st = .err .IncorrectValue := by
  simp [immediateCb, hget, hab]

/-! ### Characterization of the shared primitive under `immediateCb` -/

/-- If the next items of the source are exactly the expected values from
position `i` on (followed by `tail`), immediate matching succeeds, appending
the matched items to both the result and the observer record. -/
lemma collectAux_immediateCb_ok [DecidableEq α] (values : List α) (D : List α) :
    ∀ (i : Nat) (tail : List α) (st : List α × List α),
      values.drop i = D →
      collectAux (immediateCb values) (values.length - i) i (D ++ tail) st =
        (.ok (), (st.1 ++ D, st.2 ++ D), tail) := by
  induction D with
  | nil =>
    intro i tail st h
    have hlen : values.length ≤ i := List.drop_eq_nil_iff.mp h
    have hc : values.length - i = 0 := by omega
    rw [hc]
    simp [collectAux]
  | cons d D ih =>
    intro i tail st h
    have hi : i < values.length := by
      by_contra hcon
      rw [List.drop_eq_nil_of_le (by omega)] at h
      exact List.cons_ne_nil d D h.symm
    have hget : values[i]? = some d := by
      rw [← List.head?_drop, h, List.head?_cons]
    have hcount : values.length - i = (values.length - (i + 1)) + 1 := by omega
    have hdrop : values.drop (i + 1) = D := by
      rw [← List.tail_drop, h, List.tail_cons]
    rw [hcount, List.cons_append, collectAux_cons_ok (immediateCb_eq_ok hget st),
      ih (i + 1) tail _ hdrop]
    simp

/-- On the first mismatch — the source agrees with the expected values on a
prefix `P` and then yields `a` where `b` was expected — immediate matching
stops with `IncorrectValue`; exactly the items up to and including the
mismatch are consumed, and the observer saw exactly the matched prefix. -/
lemma collectAux_immediateCb_mismatch [DecidableEq α] (values : List α)
    (P : List α) :
    ∀ (i : Nat) (a b : α) (t1 t2 : List α) (st : List α × List α),
      values.drop i = P ++ b :: t2 → a ≠ b →
      collectAux (immediateCb values) (values.length - i) i (P ++ a :: t1) st =
        (.err .IncorrectValue, (st.1 ++ P, st.2 ++ P), t1) := by
  induction P with
  | nil =>
    intro i a b t1 t2 st h hab
    have hi : i < values.length := by
      by_contra hcon
      rw [List.drop_eq_nil_of_le (by omega)] at h
      exact List.cons_ne_nil b t2 h.symm
    have hget : values[i]? = some b := by
      rw [← List.head?_drop, h, List.nil_append, List.head?_cons]
    have hcount : values.length - i = (values.length - (i + 1)) + 1 := by omega
    rw [List.nil_append, hcount, collectAux_cons_err (immediateCb_eq_err hget hab st)]
    simp
  | cons d P ih =>
    intro i a b t1 t2 st h hab
    have hi : i < values.length := by
      by_contra hcon
      rw [List.drop_eq_nil_of_le (by omega)] at h
      exact List.cons_ne_nil d (P ++ b :: t2) h.symm
    have hget : values[i]? = some d := by
      rw [← List.head?_drop, h, List.cons_append, List.head?_cons]
    have hcount : values.length - i = (values.length - (i + 1)) + 1 := by omega
    have hdrop : values.drop (i + 1) = P ++ b :: t2 := by
      rw [← List.tail_drop, h, List.cons_append, List.tail_cons]
    rw [List.cons_append, hcount, collectAux_cons_ok (immediateCb_eq_ok hget st),
      ih (i + 1) a b t1 t2 _ hdrop hab]
    simp

/-- If the whole remaining source `S` agrees with the expected values from
position `i` on but the expected values do not end there, immediate matching
exhausts the source and fails with `NotFound`. -/
lemma collectAux_immediateCb_exhaust [DecidableEq α] (values : List α)
    (S : List α) :
    ∀ (i : Nat) (e : α) (t2 : List α) (st : List α × List α),
      values.drop i = S ++ e :: t2 →
      collectAux (immediateCb values) (values.length - i) i S st =
        (.err .NotFound, (st.1 ++ S, st.2 ++ S), []) := by
  induction S with
  | nil =>
    intro i e t2 st h
    have hi : i < values.length := by
      by_contra hcon
      rw [List.drop_eq_nil_of_le (by omega)] at h
      exact List.cons_ne_nil e t2 h.symm
    have hcount : values.length - i = (values.length - (i + 1)) + 1 := by omega
    rw [hcount, collectAux_nil]
    simp
  | cons x S ih =>
    intro i e t2 st h
    have hi : i < values.length := by
      by_contra hcon
      rw [List.drop_eq_nil_of_le (by omega)] at h
      exact List.cons_ne_nil x (S ++ e :: t2) h.symm
    have hget : values[i]? = some x := by
      rw [← List.head?_drop, h, List.cons_append, List.head?_cons]
    have hcount : values.length - i = (values.length - (i + 1)) + 1 := by omega
    have hdrop : values.drop (i + 1) = S ++ e :: t2 := by
      rw [← List.tail_drop, h, List.cons_append, List.tail_cons]
    rw [hcount, collectAux_cons_ok (immediateCb_eq_ok hget st),
      ih (i + 1) e t2 _ hdrop]
    simp

/-- Conversely, if immediate matching succeeds then the source began with
exactly the expected window. -/
lemma collectAux_immediateCb_ok_inv [DecidableEq α] (values : List α) :
    ∀ (c i : Nat) (src : List α) (st st' : List α × List α) (rest : List α),
      collectAux (immediateCb values) c i src st = (.ok (), st', rest) →
      src = (values.drop i).take c ++ rest := by
  intro c
  induction c with
  | zero =>
    intro i src st st' rest h
    simp only [collectAux, Prod.mk.injEq, true_and] at h
    simp [h.2]
  | succ c ih =>
    intro i src st st' rest h
    cases src with
    | nil => rw [collectAux_nil] at h; simp at h
    | cons x src' =>
      cases hget : values[i]? with
      | none =>
        rw [collectAux_cons_panicked (by simp [immediateCb, hget]) c src'] at h
        simp at h
      | some v =>
        by_cases hx : x = v
        · subst hx
          rw [collectAux_cons_ok (immediateCb_eq_ok hget st) c src'] at h
          have hsrc := ih (i + 1) src' _ st' rest h
          have hi : i < values.length := by
            by_contra hcon
            rw [List.getElem?_eq_none (by omega)] at hget
            cases hget
          have hvi : values[i] = x := by
            rw [List.getElem?_eq_getElem hi] at hget
            exact Option.some_injective _ hget
          rw [List.drop_eq_getElem_cons hi, List.take_succ_cons, hvi, hsrc,
            List.cons_append]
        · rw [collectAux_cons_err (immediateCb_eq_err hget hx st) c src'] at h
          simp at h

/-- C2: `ImmediateValueStrategy::extract` succeeds — returning the `N`
matched items, equal to the expected sequence `E` — if and only if the next
`N` items of the source equal `E` positionally; if the source is exhausted
while all examined items matched, it fails with `NotFound` (consuming the
whole source); on the first mismatch at position `i` (= the length of the
matched prefix `P`), it fails with `IncorrectValue`, no further items are
pulled for that call, and exactly `i + 1` items have been consumed by that
call. -/
theorem immediate_extract_spec [DecidableEq α] :
    (∀ (E tail : List α),
      ImmediateValueStrategy.extract E (E ++ tail) = (.ok E, tail)) ∧
    (∀ (E src rest : List α) (r : List α),
      ImmediateValueStrategy.extract E src = (.ok r, rest) →
      src = E ++ rest ∧ r = E) ∧
    (∀ (E src : List α) (e : α) (t2 : List α), E = src ++ e :: t2 →
      ImmediateValueStrategy.extract E src = (.err .NotFound, [])) ∧
    (∀ (P : List α) (a b : α) (t1 t2 : List α), a ≠ b →
      ImmediateValueStrategy.extract (P ++ b :: t2) (P ++ a :: t1) =
        (.err .IncorrectValue, t1) ∧
      (P ++ a :: t1).length - t1.length = P.length + 1) := by
  refine ⟨?_, ?_, ?_, ?_⟩
  · intro E tail
    have hok := collectAux_immediateCb_ok E E 0 tail ([], []) (List.drop_zero E)
    simp only [Nat.sub_zero, List.nil_append] at hok
    simp [ImmediateValueStrategy.extract, ImmediateValueStrategy.extract_and,
      Pattern.collect, hok]
  · intro E src rest r h
    rcases hcol : collectAux (immediateCb E) E.length 0 src ([], []) with ⟨o, st, rest'⟩
    simp only [ImmediateValueStrategy.extract, ImmediateValueStrategy.extract_and,
      Pattern.collect, hcol] at h
    cases o with
    | ok u =>
      simp only [Prod.mk.injEq, ExtractResult.ok.injEq] at h
      obtain ⟨hr, hrest⟩ := h
      have hinv := collectAux_immediateCb_ok_inv E E.length 0 src ([], []) st rest' hcol
      simp only [List.drop_zero, List.take_length] at hinv
      have hok := collectAux_immediateCb_ok E E 0 rest' ([], []) (List.drop_zero E)
      simp only [Nat.sub_zero, List.nil_append] at hok
      rw [hinv] at hcol
      rw [hok] at hcol
      have hst : st = (E, E) := by
        have := hcol
        simp only [Prod.mk.injEq] at this
        exact this.2.1.symm
      subst hrest
      refine ⟨hinv, ?_⟩
      rw [← hr, hst]
    | err e => simp at h
    | panicked => simp at h
  · intro E src e t2 h
    have hdrop : E.drop 0 = src ++ e :: t2 := by rw [List.drop_zero, h]
    have hex := collectAux_immediateCb_exhaust E src 0 e t2 ([], []) hdrop
    simp only [Nat.sub_zero, List.nil_append] at hex
    simp [ImmediateValueStrategy.extract, ImmediateValueStrategy.extract_and,
      Pattern.collect, hex]
  · intro P a b t1 t2 hab
    have hdrop : (P ++ b :: t2).drop 0 = P ++ b :: t2 := List.drop_zero _
    have hm := collectAux_immediateCb_mismatch (P ++ b :: t2) P 0 a b t1 t2 ([], []) hdrop hab
    simp only [Nat.sub_zero, List.nil_append] at hm
    refine ⟨?_, ?_⟩
    · have hand : ImmediateValueStrategy.extract_and (P ++ b :: t2) (P ++ a :: t1) =
          (.err .IncorrectValue, t1, P) := by
        unfold ImmediateValueStrategy.extract_and Pattern.collect
        rw [hm]
      simp [ImmediateValueStrategy.extract, hand]
    · simp
      omega

/-- Witness for `immediate_extract_spec` at concrete inputs. -/
theorem immediate_extract_spec_witness :
    ImmediateValueStrategy.extract ([1, 2] : List ℕ) ([1, 2] ++ [9]) = (.ok [1, 2], [9]) ∧
    (([1, 2, 9] : List ℕ) = [1, 2] ++ [9] ∧ ([1, 2] : List ℕ) = [1, 2]) ∧
    ImmediateValueStrategy.extract ([1, 2, 3] : List ℕ) [1, 2] = (.err .NotFound, []) ∧
    (ImmediateValueStrategy.extract (([1] : List ℕ) ++ 2 :: []) ([1] ++ 3 :: [9]) =
        (.err .IncorrectValue, [9]) ∧
      (([1] : List ℕ) ++ 3 :: [9]).length - [9].length = [1].length + 1) :=
  ⟨immediate_extract_spec.1 [1, 2] [9],
   immediate_extract_spec.2.1 [1, 2] [1, 2, 9] [9] [1, 2] (by decide),
   immediate_extract_spec.2.2.1 [1, 2, 3] [1, 2] 3 [] (by decide),
   immediate_extract_spec.2.2.2 [1] 3 2 [9] [] (by decide)⟩

/-! ### Characterization of the deferred scan and post-anchor matching -/

/-- If no item of the source equals the anchor, the scan consumes the whole
source and fails with `NotFound`. -/
lemma deferredScan_notFound [DecidableEq α] (v0 : α) (vt : List α)
    (src : List α) (h : ∀ x ∈ src, x ≠ v0) :
    deferredScan (v0 :: vt) src = (.err .NotFound, []) := by
  induction src with
  | nil => rfl
  | cons x rest ih =>
    have hx : x ≠ v0 := h x (List.mem_cons_self x rest)
    simp only [deferredScan, List.getElem?_cons_zero, hx, if_false]
    exact ih fun y hy => h y (List.mem_cons_of_mem x hy)

/-- Scanning a source that starts with anchor-free items `P` followed by the
anchor stops at the anchor, consuming `P` and the anchor. -/
lemma deferredScan_found [DecidableEq α] (v0 : α) (vt : List α)
    (P rest : List α) (h : ∀ x ∈ P, x ≠ v0) :
    deferredScan (v0 :: vt) (P ++ v0 :: rest) = (.ok v0, rest) := by
  induction P with
  | nil => simp [deferredScan]
  | cons x P ih =>
    have hx : x ≠ v0 := h x (List.mem_cons_self x P)
    simp only [List.cons_append, deferredScan, List.getElem?_cons_zero, hx, if_false]
    exact ih fun y hy => h y (List.mem_cons_of_mem x hy)

/-- The deferred callback accepts a candidate equal to the expected value at
the shifted index. -/
lemma deferredCb_eq_ok [DecidableEq α] {values : List α} {i : Nat} {d : α}
    (hget : values[i + 1]? = some d) (st : List α) :
    deferredCb values i d st = .ok (st ++ [d]) := by
  simp [deferredCb, hget]

/-- If the items after the anchor are exactly the remaining expected values
(followed by `tail`), post-anchor matching succeeds. -/
lemma collectAux_deferredCb_ok [DecidableEq α] (values : List α) (D : List α) :
    ∀ (i : Nat) (tail st : List α),
      values.drop (i + 1) = D →
      collectAux (deferredCb values) (values.length - (i + 1)) i (D ++ tail) st =
        (.ok (), st ++ D, tail) := by
  induction D with
  | nil =>
    intro i tail st h
    have hlen : values.length ≤ i + 1 := List.drop_eq_nil_iff.mp h
    have hc : values.length - (i + 1) = 0 := by omega
    rw [hc]
    simp [collectAux]
  | cons d D ih =>
    intro i tail st h
    have hi : i + 1 < values.length := by
      by_contra hcon
      rw [List.drop_eq_nil_of_le (by omega)] at h
      exact List.cons_ne_nil d D h.symm
    have hget : values[i + 1]? = some d := by
      rw [← List.head?_drop, h, List.head?_cons]
    have hcount : values.length - (i + 1) = (values.length - (i + 2)) + 1 := by
      omega
    have hdrop : values.drop (i + 2) = D := by
      rw [← List.tail_drop, h, List.tail_cons]
    rw [List.cons_append, hcount, collectAux_cons_ok (deferredCb_eq_ok hget st)]
    have := ih (i + 1) tail (st ++ [d]) hdrop
    rw [this]
    simp

/-- C3: for an expected sequence `v0 :: vt` (length `N ≥ 1`) and a source of
the form `[a, b, v0, vt..., tail...]` with `a ≠ v0` and `b ≠ v0`,
`DeferredValueStrategy::extract` succeeds, returns exactly the expected
sequence (anchor included), and consumes exactly `2 + N` items — the two
skipped items plus the `N` matched ones. -/
theorem deferred_extract_spec [DecidableEq α] (v0 : α) (vt : List α)
    (a b : α) (tail : List α) (ha : a ≠ v0) (hb : b ≠ v0) :
    DeferredValueStrategy.extract (v0 :: vt) (a :: b :: v0 :: (vt ++ tail)) =
      (.ok (v0 :: vt), tail) ∧
    (a :: b :: v0 :: (vt ++ tail)).length - tail.length =
      2 + (v0 :: vt).length := by
  have hscan : deferredScan (v0 :: vt) ([a, b] ++ v0 :: (vt ++ tail)) =
      (.ok v0, vt ++ tail) :=
    deferredScan_found v0 vt [a, b] (vt ++ tail)
      (by
        intro x hx
        simp only [List.mem_cons, List.not_mem_nil, or_false] at hx
        rcases hx with rfl | rfl
        · exact ha
        · exact hb)
  have hcol := collectAux_deferredCb_ok (v0 :: vt) vt 0 tail [v0] rfl
  have hand : DeferredValueStrategy.extract_and (v0 :: vt)
      (a :: b :: v0 :: (vt ++ tail)) = (.ok (v0 :: vt), tail, [v0 :: vt]) := by
    unfold DeferredValueStrategy.extract_and Pattern.collect
    rw [show (a :: b :: v0 :: (vt ++ tail)) = [a, b] ++ v0 :: (vt ++ tail) by rfl,
      hscan]
    simp only [Nat.zero_add, List.length_cons, Nat.add_sub_cancel] at hcol
    simp [hcol]
  constructor
  · simp [DeferredValueStrategy.extract, hand]
  · simp
    omega

/-- Witness for `deferred_extract_spec` at concrete inputs. -/
theorem deferred_extract_spec_witness :
    DeferredValueStrategy.extract ([3, 4] : List ℕ) (9 :: 8 :: 3 :: ([4] ++ [7])) =
      (.ok [3, 4], [7]) ∧
    ((9 : ℕ) :: 8 :: 3 :: ([4] ++ [7])).length - [7].length = 2 + ([3, 4] : List ℕ).length :=
  deferred_extract_spec 3 [4] 9 8 [7] (by decide) (by decide)

/-- C4: if the anchor `v0` never occurs in the source,
`DeferredValueStrategy::extract` fails with `NotFound` and the entire source
has been consumed (nothing remains). -/
theorem deferred_notfound_spec [DecidableEq α] (v0 : α) (vt : List α)
    (src : List α) (h : ∀ x ∈ src, x ≠ v0) :
    DeferredValueStrategy.extract (v0 :: vt) src = (.err .NotFound, []) := by
  have hscan := deferredScan_notFound v0 vt src h
  simp [DeferredValueStrategy.extract, DeferredValueStrategy.extract_and, hscan]

/-- Witness for `deferred_notfound_spec` at concrete inputs. -/
theorem deferred_notfound_spec_witness :
    DeferredValueStrategy.extract ([3, 4] : List ℕ) [9, 8, 7] = (.err .NotFound, []) :=
  deferred_notfound_spec 3 [4] [9, 8, 7] (by decide)

/-! ### Characterization of `GetStrategy` -/

/-- With a decoder that always succeeds and a long enough source, the get
loop pulls `N` consecutive `K`-item runs, decodes each in order, and the
observer fires once per run. -/
lemma getAux_ok (K : Nat) (f : List α → β) :
    ∀ (N : Nat) (src : List α) (acc : List β) (obs : List (List α)),
      N * K ≤ src.length →
      getAux K (fun run => some (f run)) N src acc obs =
        (.ok (acc ++ (List.range N).map fun i => f ((src.drop (i * K)).take K)),
         src.drop (N * K),
         obs ++ (List.range N).map fun i => (src.drop (i * K)).take K) := by
  intro N
  induction N with
  | zero =>
    intro src acc obs h
    simp [getAux]
  | succ n ih =>
    intro src acc obs h
    have hmul : (n + 1) * K = n * K + K := Nat.succ_mul n K
    have hK : K ≤ src.length := by omega
    have h' : n * K ≤ (src.drop K).length := by
      rw [List.length_drop]
      omega
    simp only [getAux]
    rw [AnyStrategy.extract_and_eq, if_pos hK]
    simp only []
    rw [ih (src.drop K) (acc ++ [f (src.take K)]) (obs ++ [src.take K]) h']
    simp [List.range_succ_eq_map, List.map_map, Function.comp_def, Nat.succ_mul,
      List.drop_drop, Nat.add_comm, List.append_assoc]

/-- C5: with a decoder that succeeds on every `K`-item run and a source of
exactly `N * K` items, `GetStrategy::extract` returns `Ok` with `N` decoded
values, the `i`-th decoded from the `i`-th consecutive run of `K` raw items
of the source, in order, and the whole source is consumed. -/
theorem get_extract_spec (f : List α → β) (N K : Nat) (src : List α)
    (h : src.length = N * K) :
    GetStrategy.extract N K (fun run => some (f run)) src =
      (.ok ((List.range N).map fun i => f ((src.drop (i * K)).take K)), []) := by
  have hle : N * K ≤ src.length := le_of_eq h.symm
  have hrun := getAux_ok K f N src [] [] hle
  simp only [List.nil_append] at hrun
  have hnil : src.drop (N * K) = [] := List.drop_eq_nil_of_le (le_of_eq h)
  simp [GetStrategy.extract, GetStrategy.extract_and, hrun, hnil]

/-- Witness for `get_extract_spec` at concrete inputs. -/
theorem get_extract_spec_witness :
    GetStrategy.extract 2 2 (fun run => some run.length) ([4, 5, 6, 7] : List ℕ) =
      (.ok [2, 2], []) := by
  have h := get_extract_spec (fun run : List ℕ => run.length) 2 2 [4, 5, 6, 7] (by decide)
  exact h.trans (by decide)

/-- If the decoder accepts the first `j` runs and rejects the `j`-th (all
runs complete within the source), the get loop stops with
`FailedDeserialize` having consumed exactly `(j + 1) * K` items; the observer
fired once per pulled run, including the rejected one. -/
lemma getAux_fail (K : Nat) (decode : List α → Option β) :
    ∀ (j N : Nat) (src : List α) (acc : List β) (obs : List (List α)),
      j < N →
      (∀ i, i < j → (decode ((src.drop (i * K)).take K)).isSome) →
      decode ((src.drop (j * K)).take K) = none →
      (j + 1) * K ≤ src.length →
      getAux K decode N src acc obs =
        (.err .FailedDeserialize, src.drop ((j + 1) * K),
         obs ++ (List.range (j + 1)).map fun i => (src.drop (i * K)).take K) := by
  intro j
  induction j with
  | zero =>
    intro N src acc obs hjN hprev hj hlen
    obtain ⟨m, rfl⟩ : ∃ m, N = m + 1 := ⟨N - 1, by omega⟩
    have hone : 1 * K = K := Nat.one_mul K
    have hK : K ≤ src.length := by omega
    simp only [Nat.zero_mul, List.drop_zero] at hj
    simp only [getAux]
    rw [AnyStrategy.extract_and_eq, if_pos hK]
    simp only []
    rw [hj]
    simp [List.range_succ]
  | succ j ih =>
    intro N src acc obs hjN hprev hj hlen
    obtain ⟨m, rfl⟩ : ∃ m, N = m + 1 := ⟨N - 1, by omega⟩
    have hmul2 : (j + 1 + 1) * K = (j + 1) * K + K := Nat.succ_mul (j + 1) K
    have hmul1 : (j + 1) * K = j * K + K := Nat.succ_mul j K
    have hK : K ≤ src.length := by omega
    have h0 : (decode ((src.drop (0 * K)).take K)).isSome := hprev 0 (by omega)
    simp only [Nat.zero_mul, List.drop_zero] at h0
    obtain ⟨v, hv⟩ := Option.isSome_iff_exists.mp h0
    have hprev' : ∀ i, i < j → (decode (((src.drop K).drop (i * K)).take K)).isSome := by
      intro i hi
      have := hprev (i + 1) (by omega)
      simpa [List.drop_drop, Nat.succ_mul, Nat.add_comm] using this
    have hj' : decode (((src.drop K).drop (j * K)).take K) = none := by
      have := hj
      simpa [List.drop_drop, Nat.succ_mul, Nat.add_comm] using this
    have hlen' : (j + 1) * K ≤ (src.drop K).length := by
      rw [List.length_drop]
      omega
    simp only [getAux]
    rw [AnyStrategy.extract_and_eq, if_pos hK]
    simp only []
    rw [hv]
    show getAux K decode m (src.drop K) (acc ++ [v]) (obs ++ [src.take K]) = _
    rw [ih m (src.drop K) (acc ++ [v]) (obs ++ [src.take K]) (by omega) hprev' hj' hlen']
    have hdrop2 : (src.drop K).drop ((j + 1) * K) = src.drop ((j + 1 + 1) * K) := by
      rw [List.drop_drop]
      congr 1
      ring
    have hobs2 : (obs ++ [src.take K]) ++
        (List.range (j + 1)).map (fun i => ((src.drop K).drop (i * K)).take K) =
        obs ++ (List.range (j + 1 + 1)).map (fun i => (src.drop (i * K)).take K) := by
      rw [List.append_assoc]
      congr 1
      conv_rhs => rw [List.range_succ_eq_map]
      rw [List.map_cons, List.map_map]
      simp only [Nat.zero_mul, List.drop_zero, List.singleton_append]
      congr 1
      apply List.map_congr_left
      intro i hi
      simp only [Function.comp_apply]
      rw [List.drop_drop]
      congr 2
      rw [Nat.succ_mul]
      omega
    rw [hdrop2, hobs2]

/-- Counterexample to C7 as stated: the claim says the returned
`FailedDeserialize` error carries enough context (a per-call index or a
consumed-count) to locate the offending run, but `PatternError` in the code
is a bare unit-like enum.  Two extractions whose decoder rejects the run at
different indices (`j = 0` with one item consumed, `j = 1` with two items
consumed) return the very same error value, so the error identifies
neither. -/
theorem get_faileddeserialize_counterexample :
    (GetStrategy.extract 1 1 (fun l => if l = [0] then some 0 else none)
        ([1] : List ℕ)).1 = .err .FailedDeserialize ∧
    (GetStrategy.extract 2 1 (fun l => if l = [0] then some 0 else none)
        ([0, 1] : List ℕ)).1 = .err .FailedDeserialize ∧
    ([1] : List ℕ).length -
        (GetStrategy.extract 1 1 (fun l => if l = [0] then some 0 else none)
          ([1] : List ℕ)).2.length = 1 ∧
    ([0, 1] : List ℕ).length -
        (GetStrategy.extract 2 1 (fun l => if l = [0] then some 0 else none)
          ([0, 1] : List ℕ)).2.length = 2 ∧
    (GetStrategy.extract 1 1 (fun l => if l = [0] then some 0 else none)
        ([1] : List ℕ)).1 =
      (GetStrategy.extract 2 1 (fun l => if l = [0] then some 0 else none)
        ([0, 1] : List ℕ)).1 := by
  decide

/-- C7 (amended): when the decoder rejects the value derived from the `j`-th
`K`-item run (having accepted the earlier runs), `GetStrategy::extract` stops
immediately and fails with `FailedDeserialize`; no output array is
observable, and exactly `j * K + K` items have been consumed (a rejected run
was necessarily pulled in full, so fewer is impossible; if the source runs
out during a pull the extraction instead fails with `NotFound` before the
decoder sees the run).  The error itself is a bare variant and carries no
index or consumed-count. -/
theorem get_faileddeserialize_spec (j N K : Nat) (decode : List α → Option β)
    (src : List α) (hjN : j < N)
    (hprev : ∀ i, i < j → (decode ((src.drop (i * K)).take K)).isSome)
    (hj : decode ((src.drop (j * K)).take K) = none)
    (hlen : (j + 1) * K ≤ src.length) :
    GetStrategy.extract N K decode src =
      (.err .FailedDeserialize, src.drop (j * K + K)) ∧
    src.length - (src.drop (j * K + K)).length = j * K + K := by
  have hfail := getAux_fail K decode j N src [] [] hjN hprev hj hlen
  have hmul : (j + 1) * K = j * K + K := Nat.succ_mul j K
  rw [hmul] at hfail
  constructor
  · simp [GetStrategy.extract, GetStrategy.extract_and, hfail]
  · rw [List.length_drop]
    omega

/-- Witness for `get_faileddeserialize_spec` at concrete inputs. -/
theorem get_faileddeserialize_spec_witness :
    GetStrategy.extract 2 1 (fun l => if l = [0] then some 0 else none)
        ([0, 1] : List ℕ) = (.err .FailedDeserialize, []) ∧
    ([0, 1] : List ℕ).length - (([0, 1] : List ℕ).drop (1 * 1 + 1)).length = 1 * 1 + 1 := by
  have h := get_faileddeserialize_spec 1 2 1
    (fun l : List ℕ => if l = [0] then some (0 : ℕ) else none) [0, 1]
    (by decide)
    (by
      intro i hi
      have hz : i = 0 := by omega
      subst hz
      decide)
    (by decide) (by decide)
  exact ⟨h.1.trans (by decide), h.2⟩

/-- If the get loop succeeds, the observer record gained exactly one entry
per pulled `K`-item run, in consumption order. -/
lemma getAux_obs_ok (K : Nat) (decode : List α → Option β) :
    ∀ (N : Nat) (src : List α) (acc : List β) (obs : List (List α)) (r : List β),
      (getAux K decode N src acc obs).1 = .ok r →
      (getAux K decode N src acc obs).2.2 =
        obs ++ (List.range N).map fun i => (src.drop (i * K)).take K := by
  intro N
  induction N with
  | zero =>
    intro src acc obs r h
    simp [getAux]
  | succ n ih =>
    intro src acc obs r h
    simp only [getAux] at h ⊢
    rw [AnyStrategy.extract_and_eq] at h ⊢
    by_cases hK : K ≤ src.length
    · rw [if_pos hK] at h ⊢
      simp only [] at h ⊢
      cases hdec : decode (src.take K) with
      | some v =>
        rw [hdec] at h
        have h' : (getAux K decode n (src.drop K) (acc ++ [v])
            (obs ++ [src.take K])).1 = .ok r := h
        have hrec := ih (src.drop K) (acc ++ [v]) (obs ++ [src.take K]) r h'
        show (getAux K decode n (src.drop K) (acc ++ [v])
          (obs ++ [src.take K])).2.2 = _
        rw [hrec, List.append_assoc]
        congr 1
        conv_rhs => rw [List.range_succ_eq_map]
        rw [List.map_cons, List.map_map]
        simp only [Nat.zero_mul, List.drop_zero, List.singleton_append]
        congr 1
        apply List.map_congr_left
        intro i hi
        simp only [Function.comp_apply]
        rw [List.drop_drop]
        congr 2
        rw [Nat.succ_mul]
        omega
      | none =>
        rw [hdec] at h
        simp at h
    · rw [if_neg hK] at h
      simp at h

/-- Counterexample to C6 as stated: the claim says the observer callback is
never invoked during an extraction call that fails, and in particular not at
all for a failing `ImmediateValueStrategy` extraction.  But
`ImmediateValueStrategy::extract_and` invokes the closure once per matched
item inside the matching loop: extracting expected `[1, 2]` from source
`[1, 3]` fails with `IncorrectValue`, yet the closure was invoked once (with
the matched item `1`). -/
theorem observer_callback_counterexample :
    (ImmediateValueStrategy.extract_and ([1, 2] : List ℕ) [1, 3]).1 =
      .err .IncorrectValue ∧
    (ImmediateValueStrategy.extract_and ([1, 2] : List ℕ) [1, 3]).2.2 = [1] := by
  decide

/-- C6 (amended): for `AnyStrategy` and `DeferredValueStrategy` the observer
callback is invoked exactly once, with the full extracted slice, after
extraction succeeds, and never during a failing call.
`ImmediateValueStrategy` instead invokes its callback once per matched item
(receiving the item, not a slice) as matching proceeds, so a failing call has
invoked it once per item matched before the mismatch; `GetStrategy` forwards
the callback to its inner `AnyStrategy`, invoking it once per successfully
pulled `K`-item run, including the run whose decoding then fails. -/
theorem observer_callback_spec [DecidableEq α] :
    (∀ (N : Nat) (src r : List α),
      (AnyStrategy.extract_and N src).1 = .ok r →
      (AnyStrategy.extract_and N src).2.2 = [r]) ∧
    (∀ (N : Nat) (src : List α) (e : PatternError),
      (AnyStrategy.extract_and N src).1 = .err e →
      (AnyStrategy.extract_and N src).2.2 = []) ∧
    (∀ (E src r : List α),
      (DeferredValueStrategy.extract_and E src).1 = .ok r →
      (DeferredValueStrategy.extract_and E src).2.2 = [r]) ∧
    (∀ (E src : List α) (e : PatternError),
      (DeferredValueStrategy.extract_and E src).1 = .err e →
      (DeferredValueStrategy.extract_and E src).2.2 = []) ∧
    (∀ (E tail : List α),
      (ImmediateValueStrategy.extract_and E (E ++ tail)).2.2 = E) ∧
    (∀ (P : List α) (a b : α) (t1 t2 : List α), a ≠ b →
      (ImmediateValueStrategy.extract_and (P ++ b :: t2) (P ++ a :: t1)).1 =
        .err .IncorrectValue ∧
      (ImmediateValueStrategy.extract_and (P ++ b :: t2) (P ++ a :: t1)).2.2 = P) ∧
    (∀ (N K : Nat) (decode : List α → Option β) (src : List α) (r : List β),
      (GetStrategy.extract_and N K decode src).1 = .ok r →
      (GetStrategy.extract_and N K decode src).2.2 =
        (List.range N).map fun i => (src.drop (i * K)).take K) ∧
    (∀ (j N K : Nat) (decode : List α → Option β) (src : List α),
      j < N →
      (∀ i, i < j → (decode ((src.drop (i * K)).take K)).isSome) →
      decode ((src.drop (j * K)).take K) = none →
      (j + 1) * K ≤ src.length →
      (GetStrategy.extract_and N K decode src).1 = .err .FailedDeserialize ∧
      (GetStrategy.extract_and N K decode src).2.2 =
        (List.range (j + 1)).map fun i => (src.drop (i * K)).take K) := by
  refine ⟨?_, ?_, ?_, ?_, ?_, ?_, ?_, ?_⟩
  · intro N src r h
    rw [AnyStrategy.extract_and_eq] at h ⊢
    by_cases hN : N ≤ src.length
    · rw [if_pos hN] at h ⊢
      simp only [ExtractResult.ok.injEq] at h
      rw [h]
    · rw [if_neg hN] at h
      simp at h
  · intro N src e h
    rw [AnyStrategy.extract_and_eq] at h ⊢
    by_cases hN : N ≤ src.length
    · rw [if_pos hN] at h
      simp at h
    · rw [if_neg hN]
  · intro E src r h
    rcases hscan : deferredScan E src with ⟨o, rest⟩
    cases o with
    | ok c =>
      rcases hcol : Pattern.collect (E.length - 1) (deferredCb E) rest [c] with ⟨o2, st, rest'⟩
      cases o2 <;>
        simp_all [DeferredValueStrategy.extract_and, hscan, hcol]
    | err e => simp_all [DeferredValueStrategy.extract_and, hscan]
    | panicked => simp_all [DeferredValueStrategy.extract_and, hscan]
  · intro E src e h
    rcases hscan : deferredScan E src with ⟨o, rest⟩
    cases o with
    | ok c =>
      rcases hcol : Pattern.collect (E.length - 1) (deferredCb E) rest [c] with ⟨o2, st, rest'⟩
      cases o2 <;>
        simp_all [DeferredValueStrategy.extract_and, hscan, hcol]
    | err e2 => simp_all [DeferredValueStrategy.extract_and, hscan]
    | panicked => simp_all [DeferredValueStrategy.extract_and, hscan]
  · intro E tail
    have hok := collectAux_immediateCb_ok E E 0 tail ([], []) (List.drop_zero E)
    simp only [Nat.sub_zero, List.nil_append] at hok
    simp [ImmediateValueStrategy.extract_and, Pattern.collect, hok]
  · intro P a b t1 t2 hab
    have hm := collectAux_immediateCb_mismatch (P ++ b :: t2) P 0 a b t1 t2 ([], [])
      (List.drop_zero _) hab
    simp only [Nat.sub_zero, List.nil_append] at hm
    have hand : ImmediateValueStrategy.extract_and (P ++ b :: t2) (P ++ a :: t1) =
        (.err .IncorrectValue, t1, P) := by
      unfold ImmediateValueStrategy.extract_and Pattern.collect
      rw [hm]
    rw [hand]
    exact ⟨rfl, rfl⟩
  · intro N K decode src r h
    have hobs := getAux_obs_ok K decode N src [] [] r h
    simpa [GetStrategy.extract_and] using hobs
  · intro j N K decode src hjN hprev hj hlen
    have hfail := getAux_fail K decode j N src [] [] hjN hprev hj hlen
    constructor
    · simp [GetStrategy.extract_and, hfail]
    · simp [GetStrategy.extract_and, hfail]

/-- Witness for `observer_callback_spec` at concrete inputs. -/
theorem observer_callback_spec_witness :
    (AnyStrategy.extract_and 2 ([5, 6] : List ℕ)).2.2 = [[5, 6]] ∧
    (AnyStrategy.extract_and 3 ([5] : List ℕ)).2.2 = [] ∧
    (DeferredValueStrategy.extract_and ([3] : List ℕ) [9, 3]).2.2 = [[3]] ∧
    (DeferredValueStrategy.extract_and ([3] : List ℕ) [9]).2.2 = [] ∧
    (ImmediateValueStrategy.extract_and ([1] : List ℕ) ([1] ++ [2])).2.2 = [1] ∧
    ((ImmediateValueStrategy.extract_and (([1] : List ℕ) ++ 2 :: [])
        ([1] ++ 3 :: [9])).1 = .err .IncorrectValue ∧
      (ImmediateValueStrategy.extract_and (([1] : List ℕ) ++ 2 :: [])
        ([1] ++ 3 :: [9])).2.2 = [1]) ∧
    (GetStrategy.extract_and 2 1 (fun run : List ℕ => some run.length)
        ([4, 5] : List ℕ)).2.2 = [[4], [5]] ∧
    ((GetStrategy.extract_and 2 1 (fun l : List ℕ => if l = [0] then some 0 else none)
        ([0, 1] : List ℕ)).1 = .err .FailedDeserialize ∧
      (GetStrategy.extract_and 2 1 (fun l : List ℕ => if l = [0] then some 0 else none)
        ([0, 1] : List ℕ)).2.2 = [[0], [1]]) :=
  ⟨(observer_callback_spec (α := ℕ) (β := ℕ)).1 2 [5, 6] [5, 6] (by decide),
   (observer_callback_spec (α := ℕ) (β := ℕ)).2.1 3 [5] .NotFound (by decide),
   (observer_callback_spec (α := ℕ) (β := ℕ)).2.2.1 [3] [9, 3] [3] (by decide),
   (observer_callback_spec (α := ℕ) (β := ℕ)).2.2.2.1 [3] [9] .NotFound (by decide),
   (observer_callback_spec (α := ℕ) (β := ℕ)).2.2.2.2.1 [1] [2],
   (observer_callback_spec (α := ℕ) (β := ℕ)).2.2.2.2.2.1 [1] 3 2 [9] [] (by decide),
   ((observer_callback_spec (α := ℕ) (β := ℕ)).2.2.2.2.2.2.1 2 1
       (fun run => some run.length) [4, 5] [1, 1] (by decide)).trans (by decide),
   (by
     have h := (observer_callback_spec (α := ℕ) (β := ℕ)).2.2.2.2.2.2.2 1 2 1
       (fun l => if l = [0] then some 0 else none) [0, 1]
       (by decide)
       (by
         intro i hi
         have hz : i = 0 := by omega
         subst hz
         decide)
       (by decide) (by decide)
     exact ⟨h.1, h.2.trans (by decide)⟩)⟩

/-! ### Panic-freedom -/

/-- `Pattern::collect` never panics if the callback never panics at the
indices it can be invoked with (`i` up to `i + count - 1`). -/
lemma collectAux_ne_panicked (cb : Nat → α → σ → CbResult σ) :
    ∀ (c i : Nat) (src : List α) (s : σ),
      (∀ j x s', j < i + c → cb j x s' ≠ .panicked) →
      (collectAux cb c i src s).1 ≠ .panicked := by
  intro c
  induction c with
  | zero =>
    intro i src s hcb
    simp [collectAux]
  | succ c ih =>
    intro i src s hcb
    cases src with
    | nil =>
      rw [collectAux_nil]
      simp
    | cons x rest =>
      cases hx : cb i x s with
      | ok s' =>
        rw [collectAux_cons_ok hx]
        exact ih (i + 1) rest s' fun j y s'' hj => hcb j y s'' (by omega)
      | err e =>
        rw [collectAux_cons_err hx]
        simp
      | panicked => exact absurd hx (hcb i x s (by omega))

/-- The deferred scan never panics when the expected sequence is
non-empty. -/
lemma deferredScan_ne_panicked [DecidableEq α] (v0 : α) (vt : List α) :
    ∀ (src : List α), (deferredScan (v0 :: vt) src).1 ≠ .panicked := by
  intro src
  induction src with
  | nil => simp [deferredScan]
  | cons x rest ih =>
    simp only [deferredScan, List.getElem?_cons_zero]
    by_cases hx : x = v0
    · simp [hx]
    · simp only [hx, if_false]
      exact ih

/-- The get loop never panics: its only consumption goes through
`AnyStrategy`, whose callback is total. -/
lemma getAux_ne_panicked (K : Nat) (decode : List α → Option β) :
    ∀ (N : Nat) (src : List α) (acc : List β) (obs : List (List α)),
      (getAux K decode N src acc obs).1 ≠ .panicked := by
  intro N
  induction N with
  | zero =>
    intro src acc obs
    simp [getAux]
  | succ n ih =>
    intro src acc obs
    simp only [getAux]
    rw [AnyStrategy.extract_and_eq]
    by_cases hK : K ≤ src.length
    · rw [if_pos hK]
      simp only []
      cases hdec : decode (src.take K) with
      | some v => exact ih (src.drop K) (acc ++ [v]) (obs ++ [src.take K])
      | none => simp
    · rw [if_neg hK]
      simp

/-- Counterexample to C8 as stated: the claim includes `N = 0` for every
strategy, but `DeferredValueStrategy` with an empty expected sequence on a
non-empty source hits the out-of-bounds access `values[0]` inside the scan
loop — a Rust panic, after one item has been pulled. -/
theorem no_panic_counterexample :
    (DeferredValueStrategy.extract_and ([] : List ℕ) [5]).1 = .panicked := by
  decide

/-- C8 (amended): every extraction operation, for every count (including
`N = 0`) and every source (including an exhausted one), returns a value of
the result type — `Ok` on success or a `PatternError` on failure — and never
panics, with one exception: `DeferredValueStrategy` with an empty expected
sequence (`N = 0`) panics on its unconditional out-of-bounds read of
`expected[0]` as soon as the source yields an item. -/
theorem no_panic_spec [DecidableEq α] :
    (∀ (N : Nat) (src : List α), (AnyStrategy.extract_and N src).1 ≠ .panicked) ∧
    (∀ (E src : List α), (ImmediateValueStrategy.extract_and E src).1 ≠ .panicked) ∧
    (∀ (E src : List α), E ≠ [] →
      (DeferredValueStrategy.extract_and E src).1 ≠ .panicked) ∧
    (∀ (N K : Nat) (decode : List α → Option β) (src : List α),
      (GetStrategy.extract_and N K decode src).1 ≠ .panicked) ∧
    (∀ (x : α) (rest : List α),
      (DeferredValueStrategy.extract_and ([] : List α) (x :: rest)).1 = .panicked) := by
  refine ⟨?_, ?_, ?_, ?_, ?_⟩
  · intro N src
    rw [AnyStrategy.extract_and_eq]
    by_cases hN : N ≤ src.length
    · rw [if_pos hN]
      simp
    · rw [if_neg hN]
      simp
  · intro E src
    have hcb : ∀ (j : Nat) (x : α) (s' : List α × List α), j < 0 + E.length →
        immediateCb E j x s' ≠ .panicked := by
      intro j x s' hj
      have hj' : j < E.length := by omega
      have hg := List.getElem?_eq_getElem hj'
      simp only [immediateCb, hg]
      split <;> simp
    have hnp := collectAux_ne_panicked (immediateCb E) E.length 0 src ([], []) hcb
    rcases hcol : collectAux (immediateCb E) E.length 0 src ([], []) with ⟨o, st, rest⟩
    rw [hcol] at hnp
    simp only [ImmediateValueStrategy.extract_and, Pattern.collect, hcol]
    cases o with
    | ok u => simp
    | err e => simp
    | panicked => exact absurd rfl hnp
  · intro E src hE
    obtain ⟨v0, vt, rfl⟩ : ∃ v0 vt, E = v0 :: vt := by
      cases E with
      | nil => exact absurd rfl hE
      | cons v0 vt => exact ⟨v0, vt, rfl⟩
    have hscan := deferredScan_ne_panicked v0 vt src
    rcases hs : deferredScan (v0 :: vt) src with ⟨o, rest⟩
    rw [hs] at hscan
    cases o with
    | ok c =>
      have hcb : ∀ (j : Nat) (x : α) (s' : List α),
          j < 0 + ((v0 :: vt).length - 1) → deferredCb (v0 :: vt) j x s' ≠ .panicked := by
        intro j x s' hj
        have hj' : j + 1 < (v0 :: vt).length := by
          simp only [List.length_cons] at hj ⊢
          omega
        have hg := List.getElem?_eq_getElem hj'
        simp only [deferredCb, hg]
        split <;> simp
      have hnp := collectAux_ne_panicked (deferredCb (v0 :: vt))
        ((v0 :: vt).length - 1) 0 rest [c] hcb
      rcases hcol : collectAux (deferredCb (v0 :: vt)) ((v0 :: vt).length - 1) 0 rest [c]
        with ⟨o2, st, rest'⟩
      rw [hcol] at hnp
      simp only [DeferredValueStrategy.extract_and, Pattern.collect, hs, hcol]
      cases o2 with
      | ok u => simp
      | err e => simp
      | panicked => exact absurd rfl hnp
    | err e =>
      simp [DeferredValueStrategy.extract_and, hs]
    | panicked => exact absurd rfl hscan
  · intro N K decode src
    exact getAux_ne_panicked K decode N src [] []
  · intro x rest
    rfl

/-- Witness for `no_panic_spec` at concrete inputs. -/
theorem no_panic_spec_witness :
    (DeferredValueStrategy.extract_and ([3] : List ℕ) [7, 3]).1 ≠ .panicked :=
  (no_panic_spec (α := ℕ) (β := ℕ)).2.2.1 [3] [7, 3] (by decide)
